import Mathlib

/-!
Verification of the interactive tic-tac-toe application
(src/frontend_react/src/App.js) against its specification.

The game state kept by the React component consists of
  - `squares`  : the flat 3x3 board, an array of 9 cells, each "X", "O" or null;
  - `xIsNext`  : the turn indicator ("X" goes first);
  - `history`  : the list of pre-move board snapshots, supporting "new game".
The remaining component state (`winner`, `winningLine`, `isGameOver`) is kept
in sync by a `useEffect` keyed on `squares`, so it is a pure function of the
board; we model it as the derived functions `calculateWinner`, `isGameOver`
and `outcome` below.

JavaScript array subtleties that the model captures: writing
`nextSquares[i]` at an index outside 0..8 never changes the nine board
cells, but it does persist — for `i >= 9` it extends the array with an
element (leaving holes below it), for negative `i` it sets an own property
on the array object — and a later read of `squares[i]` at such a written
position yields the stored mark, which is truthy and blocks the click
guard, while an unwritten out-of-range position (including a hole) reads
`undefined`, falsy like a `null` cell.  Moreover `squares.slice()` copies
the array elements, extension included, but not own properties, so marks
at negative indices are discarded by the next click that passes the guard,
while marks at indices >= 9 survive it.  We model the nine board cells as
a `List Cell` of length 9 and carry the persisted out-of-range writes in
two extra state fields, `negJunk` (own properties at negative indices) and
`posJunk` (extension elements at indices >= 9), read by `jsRead` below.

The extension elements never change the derived observables: only indices
0..8 reach `calculateWinner`, and `squares.every(Boolean)` iterates the
extension too but every extension element is a stored mark (truthy) and
holes are skipped, so `every(Boolean)` still decides exactly "all nine
board cells are filled".
-/

/-- The two player marks, the strings "X" and "O" of the source. -/
inductive Player : Type
  | X : Player
  | O : Player
deriving DecidableEq, Repr

/-- One board cell: `some p` for a placed mark, `none` for JS `null`. -/
abbrev Cell : Type := Option Player

/-- Content of a board cell: the read of `squares[i]` restricted to the
nine real cells of the 3x3 board.  An index outside 0..8 names no board
cell, so it reads empty here; the full JS read, junk positions included,
is `jsRead` below, and the two agree on 0..8. -/
def squaresAt (sq : List Cell) (i : ℤ) : Cell :=
  if 0 ≤ i then sq.getD i.toNat none else none

/-- Effect of the write `nextSquares[i] = v` on the nine board cells: JS
assignment at an out-of-range index never changes cells 0..8 (it extends
the array or sets a non-element own property), so on the 9-cell board it is
the identity; the persisted out-of-range part of the write is tracked by
the `negJunk` / `posJunk` state fields in `handleClick`. -/
def boardSet (sq : List Cell) (i : ℤ) (v : Cell) : List Cell :=
  if 0 ≤ i then sq.set i.toNat v else sq

/-- Lookup of a written out-of-range position: the stored mark if the
index was written, otherwise the `undefined` (empty) read. -/
def junkLookup (l : List (ℤ × Player)) (i : ℤ) : Cell :=
  (l.find? (fun q => decide (q.1 = i))).map Prod.snd

/-- The 8 winning lines in the exact order of the `lines` literal in
`calculateWinner`: rows top-to-bottom, columns left-to-right, then the
top-left and the top-right diagonal. -/
def lines : List (ℕ × ℕ × ℕ) :=
  [(0, 1, 2), (3, 4, 5), (6, 7, 8),
   (0, 3, 6), (1, 4, 7), (2, 5, 8),
   (0, 4, 8), (2, 4, 6)]

/-- The body of the loop in `calculateWinner`: `squares[a] && squares[a] ===
squares[b] && squares[a] === squares[c]` returns the pair of the winning mark
and the line, and otherwise nothing. -/
def checkLine (sq : List Cell) : ℕ × ℕ × ℕ → Option (Player × (ℕ × ℕ × ℕ))
  | (a, b, c) =>
    match sq.getD a none with
    | some p =>
        if sq.getD b none = some p ∧ sq.getD c none = some p then
          some (p, (a, b, c))
        else none
    | none => none

/-- `calculateWinner(squares)`: the first line (in the fixed order of
`lines`) whose three cells hold the same non-empty mark, paired with that
mark; `none` models the `[null, null]` return. -/
def calculateWinner (sq : List Cell) : Option (Player × (ℕ × ℕ × ℕ)) :=
  lines.findSome? (checkLine sq)

/-- The game-over flag maintained by the effect: a winner was found, or all
cells are filled (`squares.every(Boolean)`). -/
def isGameOver (sq : List Cell) : Bool :=
  (calculateWinner sq).isSome || sq.all (fun c => c.isSome)

/-- The outcome observable of the spec. -/
inductive Outcome : Type
  | wonBy : Player → ℕ × ℕ × ℕ → Outcome
  | draw : Outcome
  | inProgress : Outcome
deriving DecidableEq, Repr

/-- The outcome derived from the board by the effect: the `winner` /
`winningLine` / `isGameOver` triple the effect stores, read as the spec's
outcome value. -/
def outcome (sq : List Cell) : Outcome :=
  match calculateWinner sq with
  | some (p, l) => Outcome.wonBy p l
  | none =>
      if sq.all (fun c => c.isSome) then Outcome.draw else Outcome.inProgress

/-- The persistent component state: the nine board cells, the persisted
out-of-range writes on the squares array (own properties at negative
indices in `negJunk`, extension elements at indices >= 9 in `posJunk`),
the turn indicator and the history.  The effect-maintained fields are
functions of `squares` and are not stored.  History entries are the
pre-move 3x3 boards: the component only ever reads `history.length`, and
the spec's snapshot is the board. -/
structure GameState : Type where
  squares : List Cell
  negJunk : List (ℤ × Player)
  posJunk : List (ℤ × Player)
  xIsNext : Bool
  history : List (List Cell)
deriving DecidableEq, Repr

/-- The full JS read of `squares[i]`: a board cell for 0..8, the stored
mark at a previously written out-of-range position, `undefined` (empty)
anywhere else, holes included. -/
def jsRead (s : GameState) (i : ℤ) : Cell :=
  if 0 ≤ i ∧ i < 9 then squaresAt s.squares i
  else if i < 0 then junkLookup s.negJunk i
  else junkLookup s.posJunk i

/-- The outcome observed on a state. -/
def stateOutcome (s : GameState) : Outcome :=
  outcome s.squares

/-- `handleClick(i)`: rejected if `squares[i]` reads truthy or the game is
over; otherwise write the current mark at `i` into the `slice()` copy
(board cell for 0..8, persisted junk otherwise; the copy keeps the
extension elements but drops the own properties), push the pre-move board
on the history and flip the turn. -/
def handleClick (s : GameState) (i : ℤ) : GameState :=
  if (jsRead s i).isSome || isGameOver s.squares then s
  else
    { squares := boardSet s.squares i (some (if s.xIsNext then Player.X else Player.O)),
      negJunk := if i < 0 then [(i, if s.xIsNext then Player.X else Player.O)] else [],
      posJunk :=
        if 9 ≤ i then (i, if s.xIsNext then Player.X else Player.O) :: s.posJunk
        else s.posJunk,
      xIsNext := !s.xIsNext,
      history := s.history ++ [s.squares] }

/-- The state produced by `handleReset` and by the initial `useState` calls:
a fresh array of nine empty cells, X to move, empty history. -/
def initialState : GameState :=
  { squares := List.replicate 9 none, negJunk := [], posJunk := [],
    xIsNext := true, history := [] }

/-- `handleReset()`: unconditionally restore the initial state. -/
def handleReset (_s : GameState) : GameState :=
  initialState

/-- `handleNewGame()`: `handleReset` guarded by `history.length > 0`. -/
def handleNewGame (s : GameState) : GameState :=
  if s.history.length > 0 then handleReset s else s

/-- Fold a sequence of clicks over a state. -/
def applyMoves (s : GameState) (ms : List ℤ) : GameState :=
  ms.foldl handleClick s

/-- A sequence of moves each of which is valid (in range, on an empty cell,
with the game still in progress) in the state it is applied to. -/
def validMoves (s : GameState) : List ℤ → Bool
  | [] => true
  | i :: ms =>
      decide (0 ≤ i) && decide (i < 9) &&
      (squaresAt s.squares i).isNone && !(isGameOver s.squares) &&
      validMoves (handleClick s i) ms

/-- Number of cells of the board holding the given mark. -/
def countMark (p : Player) : List Cell → ℕ
  | [] => 0
  | c :: rest => (if c = some p then 1 else 0) + countMark p rest

/-- Invariant tying the mark counts to the turn indicator: the board keeps
its nine cells, and X leads O by exactly one mark when it is O's turn and
by none when it is X's turn. -/
def TurnCountInv (s : GameState) : Prop :=
  s.squares.length = 9 ∧
  countMark Player.X s.squares =
    countMark Player.O s.squares + (if s.xIsNext then 0 else 1)

/-- States reachable by the three public operations, clicks taken at any
integer index. -/
inductive Reachable : GameState → Prop where
  | init : Reachable initialState
  | move {s : GameState} (i : ℤ) : Reachable s → Reachable (handleClick s i)
  | newGame {s : GameState} : Reachable s → Reachable (handleNewGame s)
  | reset {s : GameState} : Reachable s → Reachable (handleReset s)

/-- States reachable by the three public operations with clicks restricted
to the nine indices the UI can produce. -/
inductive ReachableUI : GameState → Prop where
  | init : ReachableUI initialState
  | move {s : GameState} (i : ℤ) (h0 : 0 ≤ i) (h9 : i < 9) :
      ReachableUI s → ReachableUI (handleClick s i)
  | newGame {s : GameState} : ReachableUI s → ReachableUI (handleNewGame s)
  | reset {s : GameState} : ReachableUI s → ReachableUI (handleReset s)

/-- Modelled from the spec: a line all three of whose cells are equal and
non-empty (the spec's "all three cells are equal and non-empty"). -/
def lineFilled (sq : List Cell) (t : ℕ × ℕ × ℕ) : Bool :=
  decide ((sq.getD t.1 none).isSome = true ∧
    sq.getD t.1 none = sq.getD t.2.1 none ∧
    sq.getD t.1 none = sq.getD t.2.2 none)

/-- Modelled from the spec: scan the 8 fixed lines in order and return
won-by(mark, line) for the first line whose three cells hold the same
non-empty mark; if no line matches and all 9 cells are filled return draw;
otherwise return in-progress. -/
def outcomeSpec (sq : List Cell) : Outcome :=
  match lines.find? (lineFilled sq) with
  | some t =>
      match sq.getD t.1 none with
      | some p => Outcome.wonBy p t
      | none => Outcome.inProgress
  | none =>
      if sq.all (fun c => c.isSome) then Outcome.draw else Outcome.inProgress

-- Sanity checks on concrete inputs (kernel-evaluated).
example : outcome (List.replicate 9 none) = Outcome.inProgress := by decide
example :
    stateOutcome (applyMoves initialState [0, 4, 1, 3, 2]) =
      Outcome.wonBy Player.X (0, 1, 2) := by decide
example : (handleClick initialState 9).xIsNext = false := by decide
example : (handleClick initialState 9).squares = initialState.squares := by decide
-- An out-of-range write persists: the position then reads truthy, so a
-- repeated click there is a full no-op.
example : jsRead (handleClick initialState 9) 9 = some Player.X := by decide
example :
    handleClick (handleClick initialState 9) 9 =
      handleClick initialState 9 := by decide
example :
    handleClick (handleClick initialState (-1)) (-1) =
      handleClick initialState (-1) := by decide
-- slice() keeps extension elements but drops own properties: a mark at 9
-- survives a later in-range click, a mark at -1 does not.
example :
    handleClick (handleClick (handleClick initialState 9) 0) 9 =
      handleClick (handleClick initialState 9) 0 := by decide
example : (handleClick (handleClick initialState (-1)) 0).negJunk = [] := by
  decide

/-! ### Basic lemmas about the derived observables -/

theorem outcome_inProgress_iff (sq : List Cell) :
    outcome sq = Outcome.inProgress ↔ isGameOver sq = false := by
  unfold outcome isGameOver
  cases h : calculateWinner sq with
  | some pl => obtain ⟨p, l⟩ := pl; simp
  | none =>
      by_cases hall : sq.all (fun c => c.isSome) = true <;> simp [hall]

theorem isGameOver_true_iff (sq : List Cell) :
    isGameOver sq = true ↔ outcome sq ≠ Outcome.inProgress := by
  rw [Ne, outcome_inProgress_iff]
  simp

/-- On the nine board cells the full JS read is just the cell content. -/
theorem jsRead_eq_squaresAt (s : GameState) (i : ℤ)
    (h0 : 0 ≤ i) (h9 : i < 9) : jsRead s i = squaresAt s.squares i := by
  unfold jsRead
  rw [if_pos ⟨h0, h9⟩]

/-- A click that passes the guard produces exactly the state built from the
setter calls. -/
theorem handleClick_valid {s : GameState} {i : ℤ}
    (hempty : jsRead s i = none)
    (hprog : stateOutcome s = Outcome.inProgress) :
    handleClick s i =
      { squares := boardSet s.squares i
          (some (if s.xIsNext then Player.X else Player.O)),
        negJunk := if i < 0 then [(i, if s.xIsNext then Player.X else Player.O)] else [],
        posJunk :=
          if 9 ≤ i then (i, if s.xIsNext then Player.X else Player.O) :: s.posJunk
          else s.posJunk,
        xIsNext := !s.xIsNext,
        history := s.history ++ [s.squares] } := by
  have h2 : isGameOver s.squares = false := (outcome_inProgress_iff s.squares).mp hprog
  simp [handleClick, hempty, h2]

theorem squaresAt_boardSet_self (sq : List Cell) (i : ℤ) (v : Cell)
    (h0 : 0 ≤ i) (hlt : i.toNat < sq.length) :
    squaresAt (boardSet sq i v) i = v := by
  unfold squaresAt boardSet
  rw [if_pos h0, if_pos h0, List.getD_eq_getElem?_getD,
    List.getElem?_set_eq_of_lt v hlt]
  rfl

theorem squaresAt_boardSet_ne (sq : List Cell) (i j : ℤ) (v : Cell)
    (hne : j ≠ i) :
    squaresAt (boardSet sq i v) j = squaresAt sq j := by
  unfold squaresAt boardSet
  by_cases hi : 0 ≤ i
  · by_cases hj : 0 ≤ j
    · rw [if_pos hi, if_pos hj, if_pos hj, List.getD_eq_getElem?_getD,
        List.getD_eq_getElem?_getD, List.getElem?_set_ne (by omega)]
    · rw [if_pos hi, if_neg hj, if_neg hj]
  · rw [if_neg hi]

theorem handleClick_occupied_noop {s : GameState} {i : ℤ}
    (h : jsRead s i ≠ none) : handleClick s i = s := by
  unfold handleClick
  rw [if_pos]
  simp [Option.isSome_iff_ne_none, h]

theorem handleClick_gameOver_noop {s : GameState} {i : ℤ}
    (h : stateOutcome s ≠ Outcome.inProgress) : handleClick s i = s := by
  unfold handleClick
  rw [if_pos]
  have : isGameOver s.squares = true := (isGameOver_true_iff s.squares).mpr h
  simp [this]

/-! ### C2, C3, C10: behaviour of a single click -/

/-- C2: for every state and every cell index 0–8, if the indexed cell is
occupied or the outcome is not in-progress, then the click leaves the entire
state (board, turn indicator, outcome, history) unchanged; the operation is
total, so no error reaches the caller. -/
theorem C2_rejected_click_noop (s : GameState) (i : ℤ)
    (h0 : 0 ≤ i) (h9 : i < 9)
    (h : squaresAt s.squares i ≠ none ∨ stateOutcome s ≠ Outcome.inProgress) :
    handleClick s i = s := by
  rcases h with h | h
  · exact handleClick_occupied_noop (by rw [jsRead_eq_squaresAt s i h0 h9]; exact h)
  · exact handleClick_gameOver_noop h

theorem C2_witness :
    handleClick (handleClick initialState 0) 0 = handleClick initialState 0 :=
  C2_rejected_click_noop (handleClick initialState 0) 0 (by decide) (by decide)
    (Or.inl (by decide))

/-- C3: a click on an empty cell while the game is in progress sets that
cell to the current turn's mark, appends the pre-move board to the history,
flips the turn indicator, and the outcome observed afterwards is the outcome
evaluated on the new board. -/
theorem C3_valid_click_effect (s : GameState) (i : ℤ)
    (hlen : s.squares.length = 9) (h0 : 0 ≤ i) (h9 : i < 9)
    (hempty : squaresAt s.squares i = none)
    (hprog : stateOutcome s = Outcome.inProgress) :
    squaresAt (handleClick s i).squares i =
        some (if s.xIsNext then Player.X else Player.O) ∧
    (handleClick s i).history = s.history ++ [s.squares] ∧
    (handleClick s i).xIsNext = (!s.xIsNext) ∧
    stateOutcome (handleClick s i) = outcome ((handleClick s i).squares) := by
  rw [handleClick_valid (by rw [jsRead_eq_squaresAt s i h0 h9]; exact hempty) hprog]
  exact ⟨squaresAt_boardSet_self _ _ _ h0 (by omega), rfl, rfl, rfl⟩

theorem C3_witness :
    squaresAt (handleClick initialState 0).squares 0 =
        some (if initialState.xIsNext then Player.X else Player.O) ∧
    (handleClick initialState 0).history =
        initialState.history ++ [initialState.squares] ∧
    (handleClick initialState 0).xIsNext = (!initialState.xIsNext) ∧
    stateOutcome (handleClick initialState 0) =
        outcome ((handleClick initialState 0).squares) :=
  C3_valid_click_effect initialState 0 (by decide) (by decide) (by decide)
    (by decide) (by decide)

/-- C10: a click on an empty cell while the game is in progress changes no
board cell other than the clicked one. -/
theorem C10_click_frame (s : GameState) (i j : ℤ)
    (h0 : 0 ≤ i) (h9 : i < 9)
    (hempty : squaresAt s.squares i = none)
    (hprog : stateOutcome s = Outcome.inProgress)
    (hne : j ≠ i) :
    squaresAt (handleClick s i).squares j = squaresAt s.squares j := by
  rw [handleClick_valid (by rw [jsRead_eq_squaresAt s i h0 h9]; exact hempty) hprog]
  exact squaresAt_boardSet_ne s.squares i j _ hne

theorem C10_witness :
    squaresAt (handleClick initialState 0).squares 1 =
      squaresAt initialState.squares 1 :=
  C10_click_frame initialState 0 1 (by decide) (by decide) (by decide)
    (by decide) (by decide)

/-! ### C6, C7: reset and new game -/

/-- C6: reset has no precondition and always succeeds: from every state it
produces the state with all 9 cells empty, turn indicator X, outcome
in-progress, and empty history. -/
theorem C6_reset (s : GameState) :
    handleReset s = initialState ∧
    (handleReset s).squares = List.replicate 9 none ∧
    (handleReset s).xIsNext = true ∧
    stateOutcome (handleReset s) = Outcome.inProgress ∧
    (handleReset s).history = [] := by
  refine ⟨rfl, rfl, rfl, ?_, rfl⟩
  show stateOutcome initialState = Outcome.inProgress
  decide

/-- C7: with non-empty history, new game produces exactly the state reset
produces; with empty history it leaves the state unchanged. -/
theorem C7_newGame (s : GameState) :
    handleNewGame s = if s.history.isEmpty then s else handleReset s := by
  unfold handleNewGame
  rcases h : s.history with _ | ⟨b, hs⟩ <;> simp [h]

/-! ### C5: strict alternation of the turn indicator -/

theorem handleClick_xIsNext_of_valid {s : GameState} {i : ℤ}
    (h0 : 0 ≤ i) (h9 : i < 9)
    (hempty : (squaresAt s.squares i).isNone = true)
    (hover : isGameOver s.squares = false) :
    (handleClick s i).xIsNext = (!s.xIsNext) := by
  unfold handleClick
  rw [if_neg]
  simp [jsRead_eq_squaresAt s i h0 h9, Option.isNone_iff_eq_none.mp hempty, hover]

theorem applyMoves_xIsNext (ms : List ℤ) :
    ∀ s : GameState, validMoves s ms = true →
      (applyMoves s ms).xIsNext =
        if ms.length % 2 = 0 then s.xIsNext else !s.xIsNext := by
  induction ms with
  | nil => intro s _; simp [applyMoves]
  | cons i ms ih =>
      intro s h
      unfold validMoves at h
      simp only [Bool.and_eq_true] at h
      obtain ⟨⟨⟨⟨hb0, hb9⟩, hemp⟩, hov⟩, hrest⟩ := h
      have hstep : applyMoves s (i :: ms) = applyMoves (handleClick s i) ms := rfl
      have hov' : isGameOver s.squares = false := by
        cases hgo : isGameOver s.squares
        · rfl
        · rw [hgo] at hov; exact absurd hov (by decide)
      rw [hstep, ih _ hrest, handleClick_xIsNext_of_valid
        (of_decide_eq_true hb0) (of_decide_eq_true hb9) hemp hov']
      by_cases hp : ms.length % 2 = 0
      · have h1 : (ms.length + 1) % 2 ≠ 0 := by omega
        simp [hp, h1]
      · have h1 : (ms.length + 1) % 2 = 0 := by omega
        simp [hp, h1]

/-- C5: after any sequence of N valid moves from the reset state, the mark
to move is X when N is even and O when N is odd. -/
theorem C5_alternation (ms : List ℤ)
    (h : validMoves initialState ms = true) :
    (if (applyMoves initialState ms).xIsNext then Player.X else Player.O) =
      (if ms.length % 2 = 0 then Player.X else Player.O) := by
  rw [applyMoves_xIsNext ms initialState h]
  by_cases hp : ms.length % 2 = 0 <;> simp [hp, initialState]

theorem C5_witness :
    (if (applyMoves initialState [0, 4]).xIsNext then Player.X else Player.O) =
      (if ([0, 4] : List ℤ).length % 2 = 0 then Player.X else Player.O) :=
  C5_alternation [0, 4] (by decide)

/-! ### C1: the outcome as a function of the board, against the spec text -/

theorem lineFilled_isSome {sq : List Cell} {t : ℕ × ℕ × ℕ}
    (h : lineFilled sq t = true) : ∃ p, sq.getD t.1 none = some p := by
  have h1 := (of_decide_eq_true h).1
  cases hA : sq.getD t.1 none with
  | none => rw [hA] at h1; exact absurd h1 (by simp)
  | some p => exact ⟨p, rfl⟩

theorem checkLine_eq_filled (sq : List Cell) (t : ℕ × ℕ × ℕ) :
    checkLine sq t =
      if lineFilled sq t then (sq.getD t.1 none).map (fun p => (p, t))
      else none := by
  obtain ⟨a, b, c⟩ := t
  simp only [checkLine, lineFilled]
  cases h : sq.getD a none with
  | none => simp [h]
  | some p =>
      dsimp only
      by_cases hbc : sq.getD b none = some p ∧ sq.getD c none = some p
      · rw [if_pos hbc, hbc.1, hbc.2]
        simp
      · rw [if_neg hbc, if_neg]
        exact fun hc =>
          hbc ⟨(of_decide_eq_true hc).2.1.symm, (of_decide_eq_true hc).2.2.symm⟩

theorem findSome?_checkLine_eq (sq : List Cell) :
    ∀ L : List (ℕ × ℕ × ℕ),
      L.findSome? (checkLine sq) =
        (L.find? (lineFilled sq)).bind
          (fun t => (sq.getD t.1 none).map (fun p => (p, t))) := by
  intro L
  induction L with
  | nil => rfl
  | cons t L ih =>
      rw [List.findSome?_cons, checkLine_eq_filled]
      cases ht : lineFilled sq t with
      | false => simp [List.find?_cons, ht, ih]
      | true =>
          obtain ⟨p, hp⟩ := lineFilled_isSome ht
          have hp' : sq[t.1]?.getD none = some p := by
            rw [← List.getD_eq_getElem?_getD]; exact hp
          rw [hp]
          simp [List.find?_cons, ht, hp, hp']

/-- C1: the outcome derived from the board by the code equals the outcome
the spec describes: the first of the 8 fixed lines (rows top-to-bottom,
columns left-to-right, diagonals top-left then top-right) whose three cells
hold the same non-empty mark gives won-by(mark, line); with no such line a
full board gives draw and any other board gives in-progress. -/
theorem C1_outcome_refines_spec (sq : List Cell) (hlen : sq.length = 9) :
    outcome sq = outcomeSpec sq := by
  unfold outcome outcomeSpec calculateWinner
  rw [findSome?_checkLine_eq]
  cases h : lines.find? (lineFilled sq) with
  | none => simp
  | some t =>
      obtain ⟨p, hp⟩ := lineFilled_isSome (List.find?_some h)
      have hp' : sq[t.1]?.getD none = some p := by
        rw [← List.getD_eq_getElem?_getD]; exact hp
      rw [Option.some_bind, hp]
      simp [hp']

theorem C1_witness :
    (List.replicate 9 (none : Cell)).length = 9 ∧
      outcome (List.replicate 9 none) = outcomeSpec (List.replicate 9 none) :=
  ⟨by decide, C1_outcome_refines_spec (List.replicate 9 none) (by decide)⟩

/-! ### C4: out-of-range clicks

The source has no index guard: at an index outside 0..8 that was not
written before, `squares[i]` reads falsy, so when the game is in progress
the click goes through, leaving the nine board cells untouched but still
pushing the history and flipping the turn.  The claim that the whole state
is unchanged is therefore false.  When the out-of-range position does hold
a previously written mark still present in the array, the guard reads
truthy and the click is a full no-op. -/

theorem boardSet_out_of_range {sq : List Cell} {i : ℤ} (v : Cell)
    (hout : i < 0 ∨ 8 < i) (hlen : sq.length = 9) :
    boardSet sq i v = sq := by
  unfold boardSet
  rcases hout with hout | hout
  · rw [if_neg (by omega)]
  · rw [if_pos (by omega), List.set_eq_of_length_le (by omega)]

/-- C4, as stated, is false: clicking index 9 on the fresh board flips the
turn indicator and appends to the history, so the state is not unchanged. -/
theorem C4_counterexample :
    ¬ (∀ (s : GameState) (i : ℤ), (i < 0 ∨ 8 < i) → handleClick s i = s) := by
  intro h
  have h9 := h initialState 9 (Or.inr (by decide))
  have : handleClick initialState 9 ≠ initialState := by decide
  exact this h9

/-- C4 amended: for a state with the 9-cell board and an index outside 0–8,
the click never changes any board cell or the outcome, and no failure is
visible to the caller.  It is a full no-op when the outcome is not
in-progress, or when the position reads a mark written by an earlier
out-of-range click and still present in the array; but when the outcome is
in-progress and the position reads empty, the click still appends the
pre-move board to the history and flips the turn indicator. -/
theorem C4_out_of_range_click (s : GameState) (i : ℤ)
    (hout : i < 0 ∨ 8 < i) (hlen : s.squares.length = 9) :
    (handleClick s i).squares = s.squares ∧
    stateOutcome (handleClick s i) = stateOutcome s ∧
    ((stateOutcome s ≠ Outcome.inProgress ∨ jsRead s i ≠ none) →
      handleClick s i = s) ∧
    (stateOutcome s = Outcome.inProgress → jsRead s i = none →
      (handleClick s i).history = s.history ++ [s.squares] ∧
      (handleClick s i).xIsNext = (!s.xIsNext)) := by
  by_cases hread : jsRead s i = none
  · by_cases hprog : stateOutcome s = Outcome.inProgress
    · have hstep := handleClick_valid hread hprog
      have hsq : (handleClick s i).squares = s.squares := by
        rw [hstep]
        exact boardSet_out_of_range _ hout hlen
      refine ⟨hsq, ?_, ?_, fun _ _ => ⟨?_, ?_⟩⟩
      · unfold stateOutcome
        rw [hsq]
      · rintro (hc | hc)
        · exact absurd hprog hc
        · exact absurd hread hc
      · rw [hstep]
      · rw [hstep]
    · have hnoop : handleClick s i = s := handleClick_gameOver_noop hprog
      rw [hnoop]
      exact ⟨rfl, rfl, fun _ => rfl, fun hc => absurd hc hprog⟩
  · have hnoop : handleClick s i = s := handleClick_occupied_noop hread
    rw [hnoop]
    exact ⟨rfl, rfl, fun _ => rfl, fun _ hr => absurd hr hread⟩

theorem C4_witness :
    (handleClick initialState 9).squares = initialState.squares ∧
    stateOutcome (handleClick initialState 9) = stateOutcome initialState ∧
    ((stateOutcome initialState ≠ Outcome.inProgress ∨
        jsRead initialState 9 ≠ none) →
      handleClick initialState 9 = initialState) ∧
    (stateOutcome initialState = Outcome.inProgress →
      jsRead initialState 9 = none →
      (handleClick initialState 9).history =
        initialState.history ++ [initialState.squares] ∧
      (handleClick initialState 9).xIsNext = (!initialState.xIsNext)) :=
  C4_out_of_range_click initialState 9 (Or.inr (by decide)) (by decide)

/-! ### C8: the mark-count invariant

Because the code lets an out-of-range click through (see C4), such a click
consumes a turn without placing a mark on the 3x3 board, so along traces
that use out-of-range indices the two counts can drift apart.  The claim
holds once clicks are restricted to the indices the UI can produce. -/

theorem countMark_set_of_none (q p : Player) :
    ∀ (l : List Cell) (n : ℕ), n < l.length → l.getD n none = none →
      countMark q (l.set n (some p)) =
        countMark q l + (if p = q then 1 else 0) := by
  intro l
  induction l with
  | nil => intro n hn _; simp at hn
  | cons c t ih =>
      intro n hn hd
      cases n with
      | zero =>
          have hc : c = none := by simpa using hd
          subst hc
          by_cases hpq : p = q <;> simp [countMark, hpq] <;> omega
      | succ m =>
          have hm : m < t.length := by simpa using hn
          have hd' : t.getD m none = none := by simpa using hd
          simp only [List.set_cons_succ, countMark]
          rw [ih m hm hd']
          ring

theorem turnCountInv_click {s : GameState} (i : ℤ) (h0 : 0 ≤ i) (h9 : i < 9)
    (hinv : TurnCountInv s) : TurnCountInv (handleClick s i) := by
  by_cases hempty : jsRead s i = none
  · by_cases hprog : stateOutcome s = Outcome.inProgress
    · obtain ⟨hlen, hcount⟩ := hinv
      have hn : i.toNat < s.squares.length := by omega
      have hd : s.squares.getD i.toNat none = none := by
        rw [jsRead_eq_squaresAt s i h0 h9] at hempty
        unfold squaresAt at hempty
        rw [if_pos h0] at hempty
        exact hempty
      rw [handleClick_valid hempty hprog]
      unfold TurnCountInv boardSet
      rw [if_pos h0]
      refine ⟨by simp [hlen], ?_⟩
      dsimp only
      cases hx : s.xIsNext
      · rw [hx] at hcount
        simp only [Bool.false_eq_true, if_false] at hcount ⊢
        rw [countMark_set_of_none Player.X Player.O s.squares i.toNat hn hd,
          countMark_set_of_none Player.O Player.O s.squares i.toNat hn hd]
        simp
        omega
      · rw [hx] at hcount
        simp only [if_true] at hcount ⊢
        rw [countMark_set_of_none Player.X Player.X s.squares i.toNat hn hd,
          countMark_set_of_none Player.O Player.X s.squares i.toNat hn hd]
        simp
        omega
    · rw [handleClick_gameOver_noop hprog]
      exact hinv
  · rw [handleClick_occupied_noop hempty]
    exact hinv

theorem turnCountInv_reachableUI (s : GameState) (h : ReachableUI s) :
    TurnCountInv s := by
  induction h with
  | init => exact ⟨rfl, by decide⟩
  | move i h0 h9 _ ih => exact turnCountInv_click i h0 h9 ih
  | newGame _ ih =>
      unfold handleNewGame
      split
      · show TurnCountInv initialState
        exact ⟨rfl, by decide⟩
      · exact ih
  | reset _ _ =>
      show TurnCountInv initialState
      exact ⟨rfl, by decide⟩

/-- C8, as stated over all states reachable through the three operations,
is false: the trace click 9, click 0, click 10, click 1 (out-of-range
clicks consume X's turns without placing a board mark, see C4) reaches a
board holding two O marks and no X mark. -/
theorem C8_counterexample :
    ¬ (∀ s : GameState, Reachable s →
        countMark Player.X s.squares ≤ countMark Player.O s.squares + 1 ∧
        countMark Player.O s.squares ≤ countMark Player.X s.squares + 1) := by
  intro h
  have hr : Reachable
      (handleClick (handleClick (handleClick (handleClick initialState 9) 0) 10) 1) :=
    Reachable.move 1 (Reachable.move 10 (Reachable.move 0
      (Reachable.move 9 Reachable.init)))
  have hc := h _ hr
  exact absurd hc.2 (by decide)

/-- C8 amended: in every state reachable from the reset state via clicks at
the indices 0–8 the UI can produce, new game, and reset, the counts of X
and O cells on the board differ by at most one. -/
theorem C8_mark_count_balanced (s : GameState) (h : ReachableUI s) :
    countMark Player.X s.squares ≤ countMark Player.O s.squares + 1 ∧
    countMark Player.O s.squares ≤ countMark Player.X s.squares + 1 := by
  obtain ⟨-, hcount⟩ := turnCountInv_reachableUI s h
  by_cases hx : s.xIsNext = true <;> simp [hx] at hcount <;> omega

theorem C8_witness :
    countMark Player.X initialState.squares ≤
      countMark Player.O initialState.squares + 1 ∧
    countMark Player.O initialState.squares ≤
      countMark Player.X initialState.squares + 1 :=
  C8_mark_count_balanced initialState ReachableUI.init

/-! ### C9: the concrete winning scenario -/

/-- C9: from the reset state, moves at indices 0, 4, 1, 3, 2 place the marks
X, O, X, X wins on line (0,1,2): the board after the 5th move holds X at
cells 0, 1, 2 and O at cells 3, 4, and the outcome is won-by X on (0,1,2). -/
theorem C9_scenario :
    (applyMoves initialState [0, 4, 1, 3, 2]).squares =
      [some Player.X, some Player.X, some Player.X,
       some Player.O, some Player.O, none, none, none, none] ∧
    stateOutcome (applyMoves initialState [0, 4, 1, 3, 2]) =
      Outcome.wonBy Player.X (0, 1, 2) := by
  exact ⟨by decide, by decide⟩
